import Mathlib

/-!
# Verification of the p2pftp CLI client

Shallow embedding of `cli/client.py` (class `P2PClient`) and proofs about it.

Modelling conventions:
* Python byte strings become `List Nat`; file contents likewise.
* The `file_transfers` dict (`Dict[str, FileTransfer]`, Python 3.7+ insertion
  order) becomes an insertion-ordered association list `List (String × FileTransfer)`.
* `add_message` timestamps and numeric progress text are elided from the log
  strings; the branch structure of which messages are appended is preserved.
* Network / WebRTC side effects become explicit `Action` values; the curses UI
  (`draw_ui`, `init_screen`) is out of scope per the spec.
* Fallible paths that the Python code catches (`try`/`except`) are modelled as
  total functions returning the state the handler leaves behind.
-/

namespace P2PFTP

/-- The `FileTransfer` dataclass of `cli/client.py` (lines 20-25). -/
structure FileTransfer where
  name : String
  size : Nat
  received : Nat := 0
  complete : Bool := false
deriving DecidableEq

/-- `self.file_transfers : Dict[str, FileTransfer]`, insertion ordered. -/
abbrev TransferMap := List (String × FileTransfer)

/-- `handle_file_info` (lines 139-145): a fresh uuid key is inserted (at the
end, per dict insertion order) mapping to a transfer with `received = 0`,
`complete = False`.  The uuid is a parameter here. -/
def handle_file_info (ts : TransferMap) (transferId name : String) (size : Nat) :
    TransferMap :=
  ts ++ [(transferId, { name := name, size := size })]

/-- `handle_file_chunk` (lines 147-154): iterate the transfers in insertion
order, find the first with `complete = False`, add the chunk's byte length to
its `received`, set `complete` when `received >= size`, and `break`.  The
chunk argument is the raw bytes only — the source carries no transfer id. -/
def handle_file_chunk : TransferMap → List Nat → TransferMap
  | [], _ => []
  | (k, t) :: rest, chunk =>
    if t.complete then (k, t) :: handle_file_chunk rest chunk
    else
      -- `transfer.received += len(chunk)` and the conditional
      -- `transfer.complete = True`; since `t.complete = false` here, writing
      -- `decide (size ≤ r)` is the same as only setting it when the bound is hit.
      (k, { t with received := t.received + chunk.length,
                   complete := decide (t.size ≤ t.received + chunk.length) }) :: rest

/-- Processing a sequence of inbound binary chunks (repeated `on_message`
binary branch, line 228). -/
def processChunks (ts : TransferMap) (chunks : List (List Nat)) : TransferMap :=
  chunks.foldl handle_file_chunk ts

/-- Key of the first transfer with `complete = False` in iteration order —
the transfer `handle_file_chunk` will mutate. -/
def firstIncompleteKey : TransferMap → Option String
  | [] => none
  | (k, t) :: rest => if t.complete then firstIncompleteKey rest else some k

/-- Association-list lookup mirroring a Python dict read. -/
def lookupT (k : String) : TransferMap → Option FileTransfer
  | [] => none
  | (k', t) :: rest => if k' = k then some t else lookupT k rest

/-- Total byte length the chunk handler attributes to key `k` along a trace. -/
def sumAttributed (k : String) : TransferMap → List (List Nat) → Nat
  | _, [] => 0
  | ts, c :: cs =>
    (if firstIncompleteKey ts = some k then c.length else 0) +
      sumAttributed k (handle_file_chunk ts c) cs

/-- Number of chunks the chunk handler attributes to key `k` along a trace. -/
def countAttributed (k : String) : TransferMap → List (List Nat) → Nat
  | _, [] => 0
  | ts, c :: cs =>
    (if firstIncompleteKey ts = some k then 1 else 0) +
      countAttributed k (handle_file_chunk ts c) cs

/-- Invariant maintained by the transfer map: a completed transfer has
received at least its advertised size. -/
def Inv (ts : TransferMap) : Prop :=
  ∀ p ∈ ts, (p.2).complete = true → (p.2).size ≤ (p.2).received

end P2PFTP

namespace P2PFTP

/-! ## Basic lemmas about the chunk handler -/

theorem keys_handle_file_chunk (ts : TransferMap) (c : List Nat) :
    (handle_file_chunk ts c).map Prod.fst = ts.map Prod.fst := by
  induction ts with
  | nil => rfl
  | cons hd tl ih =>
    obtain ⟨k, t⟩ := hd
    by_cases h : t.complete <;> simp [handle_file_chunk, h, ih]

theorem inv_handle_file_chunk {ts : TransferMap} (c : List Nat) (h : Inv ts) :
    Inv (handle_file_chunk ts c) := by
  induction ts with
  | nil => exact h
  | cons hd tl ih =>
    obtain ⟨k, t⟩ := hd
    have htl : Inv tl := fun q hq => h q (List.mem_cons_of_mem _ hq)
    by_cases hc : t.complete
    · unfold Inv
      intro p hp
      simp only [handle_file_chunk, hc, if_true] at hp
      rcases List.mem_cons.mp hp with hp' | hp'
      · subst hp'
        exact h (k, t) (List.mem_cons_self _ _)
      · exact ih htl p hp'
    · unfold Inv
      intro p hp
      simp only [handle_file_chunk, hc] at hp
      rcases List.mem_cons.mp hp with hp' | hp'
      · subst hp'
        intro hcomp
        simpa using of_decide_eq_true hcomp
      · exact h p (List.mem_cons_of_mem _ hp')

theorem lookupT_mem {k : String} {ts : TransferMap} {t : FileTransfer}
    (h : lookupT k ts = some t) : (k, t) ∈ ts := by
  induction ts with
  | nil => simp [lookupT] at h
  | cons hd tl ih =>
    obtain ⟨k', t'⟩ := hd
    by_cases hk : k' = k
    · subst hk
      simp [lookupT] at h
      subst h
      exact List.mem_cons_self _ _
    · simp [lookupT, hk] at h
      exact List.mem_cons_of_mem _ (ih h)

theorem firstIncompleteKey_mem {ts : TransferMap} {k : String}
    (h : firstIncompleteKey ts = some k) : k ∈ ts.map Prod.fst := by
  induction ts with
  | nil => simp [firstIncompleteKey] at h
  | cons hd tl ih =>
    obtain ⟨k', t'⟩ := hd
    by_cases hc : t'.complete
    · simp only [firstIncompleteKey, hc, if_true] at h
      simp [ih h]
    · simp only [firstIncompleteKey, hc, if_false, Bool.false_eq_true] at h
      simp at h
      simp [h]

/-- If every tracked transfer is already complete, the handler touches nothing. -/
theorem handle_file_chunk_all_complete {ts : TransferMap} (c : List Nat)
    (h : ∀ p ∈ ts, (p.2).complete = true) : handle_file_chunk ts c = ts := by
  induction ts with
  | nil => rfl
  | cons hd tl ih =>
    obtain ⟨k, t⟩ := hd
    have hc : t.complete = true := h (k, t) (List.mem_cons_self _ _)
    simp [handle_file_chunk, hc]
    exact ih (fun p hp => h p (List.mem_cons_of_mem _ hp))

/-- A transfer that is already complete is never looked at again. -/
theorem lookupT_handle_complete {k : String} {ts : TransferMap} {t : FileTransfer}
    (c : List Nat) (hl : lookupT k ts = some t) (hc : t.complete = true) :
    lookupT k (handle_file_chunk ts c) = some t := by
  induction ts with
  | nil => simp [lookupT] at hl
  | cons hd tl ih =>
    obtain ⟨k₀, t₀⟩ := hd
    by_cases hk : k₀ = k
    · subst hk
      simp [lookupT] at hl
      subst hl
      simp [handle_file_chunk, hc, lookupT]
    · simp [lookupT, hk] at hl
      by_cases h₀ : t₀.complete
      · simp [handle_file_chunk, h₀, lookupT, hk]
        exact ih hl
      · simp [handle_file_chunk, h₀, lookupT, hk]
        exact hl

/-- When the handler's scan lands on a different key, our transfer is untouched. -/
theorem lookupT_handle_other {k k' : String} {ts : TransferMap} {t : FileTransfer}
    (c : List Nat) (hl : lookupT k ts = some t)
    (hf : firstIncompleteKey ts = some k') (hne : k' ≠ k) :
    lookupT k (handle_file_chunk ts c) = some t := by
  induction ts with
  | nil => simp [lookupT] at hl
  | cons hd tl ih =>
    obtain ⟨k₀, t₀⟩ := hd
    by_cases h₀ : t₀.complete
    · simp only [firstIncompleteKey, h₀, if_true] at hf
      by_cases hk : k₀ = k
      · subst hk
        simp [lookupT] at hl
        subst hl
        simp [handle_file_chunk, h₀, lookupT]
      · simp [lookupT, hk] at hl
        simp [handle_file_chunk, h₀, lookupT, hk]
        exact ih hl hf
    · simp [firstIncompleteKey, h₀] at hf
      subst hf
      by_cases hk : k₀ = k
      · exact absurd hk hne
      · simp [lookupT, hk] at hl
        simp [handle_file_chunk, h₀, lookupT, hk]
        exact hl

/-- When the scan lands on our key (and dict keys are distinct, as uuid keys
are), the transfer was incomplete and is updated exactly as the source writes it. -/
theorem lookupT_handle_me {k : String} {ts : TransferMap} {t : FileTransfer}
    (c : List Nat) (hnd : (ts.map Prod.fst).Nodup)
    (hl : lookupT k ts = some t) (hf : firstIncompleteKey ts = some k) :
    t.complete = false ∧
      lookupT k (handle_file_chunk ts c) =
        some { t with received := t.received + c.length,
                      complete := decide (t.size ≤ t.received + c.length) } := by
  induction ts with
  | nil => simp [lookupT] at hl
  | cons hd tl ih =>
    obtain ⟨k₀, t₀⟩ := hd
    rw [List.map_cons, List.nodup_cons] at hnd
    by_cases h₀ : t₀.complete
    · simp only [firstIncompleteKey, h₀, if_true] at hf
      have hk : k₀ ≠ k := by
        intro hkk
        exact hnd.1 (by rw [hkk]; exact firstIncompleteKey_mem hf)
      simp [lookupT, hk] at hl
      obtain ⟨hcf, hres⟩ := ih hnd.2 hl hf
      refine ⟨hcf, ?_⟩
      simp [handle_file_chunk, h₀, lookupT, hk]
      exact hres
    · simp [firstIncompleteKey, h₀] at hf
      subst hf
      simp [lookupT] at hl
      subst hl
      refine ⟨by simpa using h₀, ?_⟩
      simp [handle_file_chunk, h₀, lookupT]

/-- When nothing is incomplete, the handler is the identity. -/
theorem handle_none {ts : TransferMap} (c : List Nat)
    (hf : firstIncompleteKey ts = none) : handle_file_chunk ts c = ts := by
  induction ts with
  | nil => rfl
  | cons hd tl ih =>
    obtain ⟨k₀, t₀⟩ := hd
    by_cases h₀ : t₀.complete
    · simp only [firstIncompleteKey, h₀, if_true] at hf
      simp [handle_file_chunk, h₀, ih hf]
    · simp [firstIncompleteKey, h₀] at hf

end P2PFTP

namespace P2PFTP

/-! ## Claim C1 (chunk demultiplexing) and C9 (frame effect) -/

/--
C1: the claim says every inbound binary chunk carries an explicit transfer id
and the receiver demultiplexes on it, never scanning for "the first incomplete
transfer".  The source's `handle_file_chunk` takes only the raw bytes (no id
exists anywhere in the chunk framing — `dc.send(chunk)` sends bare file bytes)
and attributes them to the first incomplete transfer in iteration order: with
two in-flight transfers `id-A` and `id-B`, a 5-byte chunk is credited to
`id-A` unconditionally, and `id-B`'s counter never moves.  This evaluates the
code at that failing input.
-/
theorem c1_scan_first_incomplete :
    handle_file_chunk
        [("id-A", { name := "a.bin", size := 100 }),
         ("id-B", { name := "b.bin", size := 100 })]
        [1, 2, 3, 4, 5] =
      [("id-A", { name := "a.bin", size := 100, received := 5, complete := false }),
       ("id-B", { name := "b.bin", size := 100 })] := by decide

/--
C9: if the transfer map is empty or every tracked transfer is complete, an
inbound binary chunk changes nothing — the scan in `handle_file_chunk` finds
no incomplete transfer, so the bytes are dropped and no `received` field moves.
-/
theorem c9_chunk_discarded (ts : TransferMap) (chunk : List Nat)
    (h : ∀ p ∈ ts, (p.2).complete = true) :
    handle_file_chunk ts chunk = ts :=
  handle_file_chunk_all_complete chunk h

/-- Witness for C9 at a concrete all-complete map and chunk. -/
theorem c9_chunk_discarded_witness :
    handle_file_chunk
        [("id1", { name := "f", size := 3, received := 3, complete := true })]
        [9, 9] =
      [("id1", { name := "f", size := 3, received := 3, complete := true })] :=
  c9_chunk_discarded _ _ (by decide)

end P2PFTP

namespace P2PFTP

/-! ## String helpers mirroring the Python string operations

These are written over `String.data` so that they evaluate by `rfl`/`decide`.
-/

/-- Whitespace as recognised by Python's `str.split()` (the characters that
occur in this program's inputs). -/
def isWs (c : Char) : Bool :=
  c = ' ' ∨ c = '\t' ∨ c = '\n' ∨ c = '\r'

/-- Helper for `splitWs`: accumulate the current word (reversed). -/
def splitWsAux : List Char → List Char → List String
  | [], acc => if acc = [] then [] else [String.mk acc.reverse]
  | c :: cs, acc =>
    if isWs c then
      if acc = [] then splitWsAux cs []
      else String.mk acc.reverse :: splitWsAux cs []
    else splitWsAux cs (c :: acc)

/-- Python `s.split()`: split on whitespace runs, dropping empty parts. -/
def splitWs (s : String) : List String :=
  splitWsAux s.data []

/-- Python `cmd.startswith('/')`. -/
def startsWithSlash (s : String) : Bool :=
  match s.data with
  | '/' :: _ => true
  | _ => false

/-- Python `cmd[1:]`. -/
def dropFirst (s : String) : String :=
  match s.data with
  | [] => ""
  | _ :: cs => String.mk cs

/-- Python `" ".join(args)`. -/
def joinSpace : List String → String
  | [] => ""
  | [a] => a
  | a :: b :: rest => a ++ " " ++ joinSpace (b :: rest)

/-- Helper for `basename`: keep the characters after the last `'/'`. -/
def basenameAux : List Char → List Char → List Char
  | [], acc => acc.reverse
  | c :: cs, acc => if c = '/' then basenameAux cs [] else basenameAux cs (c :: acc)

/-- Python `os.path.basename` on POSIX-style paths. -/
def basename (p : String) : String :=
  String.mk (basenameAux p.data [])

/-! ## Wire model -/

/-- A signaling envelope as serialised by `json.dumps` in the source; absent
fields are `none` (the source's `None` serialises to JSON `null`). -/
structure Envelope where
  type : String
  token : Option String := none
  peerToken : Option String := none
  sdp : Option String := none
  ice : Option String := none
deriving DecidableEq

/-- A message sent on the WebRTC data channel: the two JSON control shapes of
`setup_data_channel`/`process_command`, or raw binary file bytes. -/
inductive DCMessage where
  | chatMsg (content : String)
  | fileInfo (name : String) (size : Nat)
  | binary (bytes : List Nat)
deriving DecidableEq

/-- Observable side effects of the client, in program order.  `createOffer`
appears in the peer-link capability interface but, as the theorems show, is
never emitted by this client. -/
inductive Action where
  | wsSend (e : Envelope)
  | dcSend (m : DCMessage)
  | createPeerConnection
  | registerHandler (event : String)
  | createDataChannel (label : String)
  | createOffer
  | setRemoteDescription (sdp : String)
  | createAnswer
  | setLocalDescription
  | addIceCandidate (cand : String)
  | sleep (seconds : Nat)
deriving DecidableEq

/-- The mutable fields of `P2PClient` that the embedded methods touch.
`dcState = none` models `self.dc is None`; otherwise it holds `dc.readyState`.
`hasPC` models `self.pc is not None`. -/
structure ClientState where
  myToken : Option String := none
  peerToken : Option String := none
  fileTransfers : TransferMap := []
  shouldExit : Bool := false
  hasPC : Bool := false
  dcState : Option String := none
  messages : List String := []
deriving DecidableEq

/-- Fresh client, as built by `P2PClient.__init__`. -/
def s0 : ClientState := {}

/-- `add_message` (lines 132-137), timestamp elided. -/
def addMsg (s : ClientState) (m : String) : ClientState :=
  { s with messages := s.messages ++ [m] }

/-- Handler registrations performed by `setup_data_channel` (lines 202-228). -/
def setup_data_channel_actions : List Action :=
  [.registerHandler "open", .registerHandler "close",
   .registerHandler "error", .registerHandler "message"]

/-- The externally visible actions of `setup_peer_connection` (lines 156-200):
create the `RTCPeerConnection`, register the five event handlers, and — only
as initiator — create the `"file-transfer"` data channel and register its
handlers.  No `icecandidate` handler is registered and no offer is created. -/
def setup_actions (is_initiator : Bool) : List Action :=
  [Action.createPeerConnection,
   .registerHandler "connectionstatechange", .registerHandler "icegatheringstatechange",
   .registerHandler "iceconnectionstatechange", .registerHandler "signalingstatechange",
   .registerHandler "datachannel"] ++
  (if is_initiator then
     [Action.createDataChannel "file-transfer"] ++ setup_data_channel_actions
   else [])

/-- `setup_peer_connection` (lines 156-200).  As initiator it sets `self.dc`
to a freshly created channel (readyState `"connecting"` until open). -/
def setup_peer_connection (s : ClientState) (is_initiator : Bool) :
    ClientState × List Action :=
  let s1 := addMsg s "[DEBUG] Setting up peer connection..."
  let s2 := { s1 with hasPC := true }
  if is_initiator then
    let s3 := { s2 with dcState := some "connecting" }
    (addMsg s3 "[DEBUG] Created data channel as initiator", setup_actions true)
  else (s2, setup_actions false)

/-- A parsed inbound signaling message (`json.loads` of lines 230-282);
`other` covers unknown `type` values, which fall through every branch. -/
inductive WsMsg where
  | token (tok : String)
  | request (tok : String)
  | offer (sdp : String)
  | answer (sdp : String)
  | ice (cand : String)
  | other
deriving DecidableEq

/-- `handle_websocket_message` (lines 230-286).  `localSdp` stands for the
SDP text of the locally created answer (`self.pc.localDescription.sdp`, an
opaque PeerLink output).  Branches that dereference `self.pc` while it is
`None` raise `AttributeError`, which the surrounding `except` turns into an
error log (lines 284-286).  The two `[DEBUG] Processing message...` preamble
logs are elided. -/
def handle_websocket_message (localSdp : String) (s : ClientState) (m : WsMsg) :
    ClientState × List Action :=
  match m with
  | .token tok =>
    (addMsg { s with myToken := some tok } ("[INFO] Your token: " ++ tok), [])
  | .request tok =>
    let s1 := addMsg s ("[INFO] Connection request from: " ++ tok)
    let (s2, acts) := setup_peer_connection s1 false
    (s2, Action.wsSend { type := "accept", peerToken := some tok } :: acts)
  | .offer sdp =>
    if s.hasPC then
      let s1 := addMsg s "[DEBUG] Processing WebRTC offer..."
      let answerEnv : Envelope :=
        { type := "answer", peerToken := s.peerToken, sdp := some localSdp }
      (addMsg s1 "[DEBUG] Sent WebRTC answer",
       [.setRemoteDescription sdp, .createAnswer, .setLocalDescription,
        .wsSend answerEnv])
    else (addMsg s "[ERROR] Message handling error: AttributeError", [])
  | .answer sdp =>
    if s.hasPC then
      (addMsg s "[DEBUG] Processing WebRTC answer...", [.setRemoteDescription sdp])
    else (addMsg s "[ERROR] Message handling error: AttributeError", [])
  | .ice cand =>
    if s.hasPC then
      (addMsg s "[DEBUG] Processing ICE candidate...", [.addIceCandidate cand])
    else (addMsg s "[ERROR] Message handling error: AttributeError", [])
  | .other => (s, [])

/-- The filesystem visible to `/send`: filename to byte contents. -/
abbrev FileSystem := List (String × List Nat)

def lookupFile (fs : FileSystem) (name : String) : Option (List Nat) :=
  match fs with
  | [] => none
  | (n, b) :: rest => if n = name then some b else lookupFile rest name

/-- `chunk_size = 16384  # 16KB chunks` (line 344). -/
def chunk_size : Nat := 16384

/-- The chunking loop `while chunk := f.read(chunk_size)` (lines 346-351),
with explicit fuel (any fuel ≥ the byte count gives the loop's behaviour,
since each iteration consumes at least one byte). -/
def readChunksAux : Nat → List Nat → List (List Nat)
  | _, [] => []
  | 0, bs => [bs]
  | fuel + 1, bs => bs.take chunk_size :: readChunksAux fuel (bs.drop chunk_size)

/-- The sequence of binary chunks `/send` produces for a file's bytes. -/
def readChunks (bytes : List Nat) : List (List Nat) :=
  readChunksAux bytes.length bytes

/-- `process_command` (lines 288-359), as a pure function of the filesystem,
the client state and the input line.  Per-chunk progress logs and the
`await asyncio.sleep(0.001)` inter-chunk yields are elided (they are not
data-channel sends); the branch structure and every send are preserved. -/
def process_command (fs : FileSystem) (s : ClientState) (cmd : String) :
    ClientState × List Action :=
  if startsWithSlash cmd = false then
    -- not a command: chat text, sent only on an open channel (lines 289-300)
    if s.dcState = some "open" then
      (addMsg s ("Me: " ++ cmd), [.dcSend (.chatMsg cmd)])
    else (s, [])
  else
    match splitWs (dropFirst cmd) with
    | [] => (s, [])
    | command :: args =>
      if command = "connect" then
        match args with
        | [tok] =>
          let s1 := { s with peerToken := some tok }
          let (s2, setupActs) := setup_peer_connection s1 true
          (addMsg s2 ("[INFO] Connecting to " ++ tok ++ "..."),
           setupActs ++ [.wsSend { type := "connect", peerToken := some tok }])
        | _ => (addMsg s "[ERROR] Usage: /connect <token>", [])
      else if command = "send" then
        if args = [] ∨ s.dcState = none then
          (addMsg s "[ERROR] Usage: /send <filename> (must be connected)", [])
        else
          let filename := joinSpace args
          match lookupFile fs filename with
          | none => (addMsg s ("[ERROR] File not found: " ++ filename), [])
          | some bytes =>
            let s1 := addMsg s ("[DEBUG] Sending file info for " ++ filename)
            (addMsg s1 ("[INFO] File sent: " ++ filename),
             Action.dcSend (.fileInfo (basename filename) bytes.length) ::
               (readChunks bytes).map (fun c => Action.dcSend (.binary c)))
      else if command = "quit" then
        ({ s with shouldExit := true }, [])
      else (s, [])

/-- One attempt of the outer `websocket_loop` while-body: either
`websockets.connect` raises, or a connection is established, `msgs` arrive on
it, and then it is lost (`ConnectionClosed`). -/
inductive ConnAttempt where
  | connectFailed
  | connected (msgs : List WsMsg)
deriving DecidableEq

/-- The inner receive loop (lines 410-420): handle each message in order. -/
def processMsgs (localSdp : String) : ClientState → List WsMsg → ClientState × List Action
  | s, [] => (s, [])
  | s, m :: rest =>
    let r1 := handle_websocket_message localSdp s m
    let r2 := processMsgs localSdp r1.1 rest
    (r2.1, r1.2 ++ r2.2)

/-- One iteration of `websocket_loop` (lines 388-428): log the attempt; if
`websockets.connect` raises, log the failure and `await asyncio.sleep(5)`
(`retry_delay = 5`); if it succeeds, log the establishment, run the receive
loop, and on `ConnectionClosed` log the loss and `break` — falling straight
back to the outer `while` with no sleep on that path. -/
def runAttempt (localSdp : String) (s : ClientState) (a : ConnAttempt) :
    ClientState × List Action :=
  let s1 := addMsg s "[DEBUG] Attempting WebSocket connection"
  match a with
  | .connectFailed =>
    (addMsg s1 "[ERROR] WebSocket connection failed", [Action.sleep 5])
  | .connected msgs =>
    let s2 := addMsg s1 "[INFO] WebSocket connection established"
    let r := processMsgs localSdp s2 msgs
    (addMsg r.1 "[ERROR] Connection lost", r.2)

/-- The reconnect loop `while not self.should_exit` (lines 388-428), driven by
a finite adversarial schedule of connection outcomes.  The loop itself never
gives up: every element of the schedule yields one attempt. -/
def websocket_loop (localSdp : String) : ClientState → List ConnAttempt →
    ClientState × List Action
  | s, [] => (s, [])
  | s, a :: rest =>
    let r1 := runAttempt localSdp s a
    let r2 := websocket_loop localSdp r1.1 rest
    (r2.1, r1.2 ++ r2.2)

end P2PFTP

namespace P2PFTP

/-! ## Claim C10 (chat line with no open channel) -/

/--
C10: a line that does not start with `/` is silently discarded when the data
channel does not exist or its readyState is not `"open"`: `process_command`
sends nothing, appends no log entry, and leaves the whole state unchanged
(lines 289-300 guard the chat branch with `self.dc and self.dc.readyState == "open"`).
-/
theorem c10_chat_no_channel (fs : FileSystem) (s : ClientState) (cmd : String)
    (h1 : startsWithSlash cmd = false) (h2 : s.dcState ≠ some "open") :
    process_command fs s cmd = (s, []) := by
  simp only [process_command]
  rw [if_pos h1, if_neg h2]

/-- Witness for C10: fresh client (no channel), input `"hello"`. -/
theorem c10_chat_no_channel_witness :
    process_command [] s0 "hello" = (s0, []) :=
  c10_chat_no_channel [] s0 "hello" rfl (by decide)

/-! ## Claim C7 (command parsing) -/

/--
C7: `"/connect abc123"` parses to the connect command with argument list
`["abc123"]` (and drives the connect flow toward that token); `/connect` with
any argument count other than one is a usage error; `"/send a b.txt"` splits
to `["send", "a", "b.txt"]` and the remaining args are rejoined with spaces to
the filename `"a b.txt"`; a line not starting with `/` such as `"hello"` is
chat text; and `"/bogus"` falls through every command branch, leaving the
state unchanged — an unknown-command outcome, with no exception (the
embedding is a total function, as the source's branch chain simply ends).
-/
theorem c7_command_parsing :
    (splitWs (dropFirst "/connect abc123") = ["connect", "abc123"] ∧
      (process_command [] s0 "/connect abc123").1.peerToken = some "abc123" ∧
      Action.wsSend { type := "connect", peerToken := some "abc123" } ∈
        (process_command [] s0 "/connect abc123").2) ∧
    (∀ (fs : FileSystem) (s : ClientState) (cmd : String) (args : List String),
      startsWithSlash cmd = true → splitWs (dropFirst cmd) = "connect" :: args →
      args.length ≠ 1 →
      process_command fs s cmd = (addMsg s "[ERROR] Usage: /connect <token>", [])) ∧
    (splitWs (dropFirst "/send a b.txt") = ["send", "a", "b.txt"] ∧
      joinSpace ["a", "b.txt"] = "a b.txt") ∧
    (startsWithSlash "hello" = false ∧
      ∀ (fs : FileSystem) (s : ClientState), s.dcState = some "open" →
        process_command fs s "hello" =
          (addMsg s "Me: hello", [.dcSend (.chatMsg "hello")])) ∧
    (∀ (fs : FileSystem) (s : ClientState), process_command fs s "/bogus" = (s, [])) := by
  refine ⟨by decide, ?_, by decide, ⟨rfl, ?_⟩, ?_⟩
  · intro fs s cmd args h1 h2 h3
    rcases args with _ | ⟨a, _ | ⟨b, rest⟩⟩
    · simp [process_command, h1, h2]
    · simp at h3
    · simp [process_command, h1, h2]
  · intro fs s h
    simp only [process_command]
    rw [if_pos (show startsWithSlash "hello" = false from rfl), if_pos h]
    rfl
  · intro fs s
    rfl

/-- Witness for C7 discharging the usage-error hypotheses at `"/connect"`. -/
theorem c7_command_parsing_witness :
    process_command [] s0 "/connect" = (addMsg s0 "[ERROR] Usage: /connect <token>", []) :=
  c7_command_parsing.2.1 [] s0 "/connect" [] rfl rfl (by decide)

/-! ## Claim C2 (/connect flow) -/

/-- A client that has already been assigned a token (state TokenAssigned). -/
def sTok : ClientState := { myToken := some "T1" }

/--
C2 counterexample: the claim says the `/connect <peer>` handler creates an SDP
offer and sends a `connect` envelope *carrying that offer*.  Evaluating
`process_command` on `"/connect abc123"` in TokenAssigned state shows the full
action list: no `createOffer` occurs anywhere, and the single `connect`
envelope carries only the peer token — its `sdp` field is `none` (the source,
lines 309-319, sends `{"type": "connect", "peerToken": args[0]}` and never
calls `createOffer`).
-/
theorem c2_counterexample :
    (process_command [] sTok "/connect abc123").2 =
      setup_actions true ++
        [Action.wsSend { type := "connect", peerToken := some "abc123" }] ∧
    Action.createOffer ∉ (process_command [] sTok "/connect abc123").2 ∧
    ({ type := "connect", peerToken := some "abc123" } : Envelope).sdp = none := by
  decide

/--
C2 amended: for every `/connect <peer>` command line, the client stores
`<peer>` as `peerToken`, creates the PeerLink as initiator, creates the local
data channel, and sends a `connect` envelope carrying only the peer token —
no SDP offer is created or sent at this step.
-/
theorem c2_amended (fs : FileSystem) (s : ClientState) (cmd tok : String)
    (h1 : startsWithSlash cmd = true)
    (h2 : splitWs (dropFirst cmd) = ["connect", tok]) :
    (process_command fs s cmd).1.peerToken = some tok ∧
    (process_command fs s cmd).2 =
      setup_actions true ++ [Action.wsSend { type := "connect", peerToken := some tok }] ∧
    Action.createPeerConnection ∈ (process_command fs s cmd).2 ∧
    Action.createDataChannel "file-transfer" ∈ (process_command fs s cmd).2 ∧
    Action.createOffer ∉ (process_command fs s cmd).2 ∧
    (∀ e, Action.wsSend e ∈ (process_command fs s cmd).2 →
      e = { type := "connect", peerToken := some tok }) := by
  have hres : process_command fs s cmd =
      (addMsg
        (addMsg { (addMsg { s with peerToken := some tok }
            "[DEBUG] Setting up peer connection...") with
              hasPC := true, dcState := some "connecting" }
          "[DEBUG] Created data channel as initiator")
        ("[INFO] Connecting to " ++ tok ++ "..."),
       setup_actions true ++
         [Action.wsSend { type := "connect", peerToken := some tok }]) := by
    simp [process_command, h1, h2, setup_peer_connection]
  rw [hres]
  refine ⟨by simp [addMsg], rfl, ?_, ?_, ?_, ?_⟩
  · simp [setup_actions]
  · simp [setup_actions]
  · simp [setup_actions, setup_data_channel_actions]
  · intro e he
    simp [setup_actions, setup_data_channel_actions] at he
    exact he

/-- Witness for C2's amended theorem at the concrete line `"/connect xyz"`. -/
theorem c2_amended_witness :
    (process_command [] s0 "/connect xyz").1.peerToken = some "xyz" ∧
    (process_command [] s0 "/connect xyz").2 =
      setup_actions true ++ [Action.wsSend { type := "connect", peerToken := some "xyz" }] ∧
    Action.createPeerConnection ∈ (process_command [] s0 "/connect xyz").2 ∧
    Action.createDataChannel "file-transfer" ∈ (process_command [] s0 "/connect xyz").2 ∧
    Action.createOffer ∉ (process_command [] s0 "/connect xyz").2 ∧
    (∀ e, Action.wsSend e ∈ (process_command [] s0 "/connect xyz").2 →
      e = { type := "connect", peerToken := some "xyz" }) :=
  c2_amended [] s0 "/connect xyz" "xyz" rfl rfl

/-! ## Claim C3 (answer addressed to peerToken) -/

/--
C3: on the responder side the session is entered via a `request` envelope;
the source's `request` branch (lines 241-247) sends the `accept` envelope to
the requester's token but never assigns `self.peer_token`, so when the `offer`
arrives the answer envelope (lines 260-267) is sent with
`"peerToken": self.peer_token`, i.e. `null` — not the requester's token.
This evaluates the responder-side code on the failing trace
`request{token := "abc"}` then `offer`.
-/
theorem c3_answer_peer_token_null :
    (Action.wsSend { type := "accept", peerToken := some "abc" } ∈
      (handle_websocket_message "SDP-ANSWER" s0 (.request "abc")).2) ∧
    ((handle_websocket_message "SDP-ANSWER" s0 (.request "abc")).1.peerToken = none) ∧
    (Action.wsSend { type := "answer", peerToken := none, sdp := some "SDP-ANSWER" } ∈
      (handle_websocket_message "SDP-ANSWER"
        (handle_websocket_message "SDP-ANSWER" s0 (.request "abc")).1
        (.offer "SDP-OFFER")).2) := by
  decide

end P2PFTP

namespace P2PFTP

/-! ## Chunking lemmas for the send path -/

theorem readChunksAux_nil (fuel : Nat) : readChunksAux fuel [] = [] := by
  cases fuel <;> rfl

theorem readChunksAux_mem {fuel : Nat} {bs : List Nat} (h : bs.length ≤ fuel) :
    ∀ c ∈ readChunksAux fuel bs, c.length ≤ chunk_size ∧ c ≠ [] := by
  induction fuel generalizing bs with
  | zero =>
    have hbs : bs = [] := List.length_eq_zero.mp (Nat.le_zero.mp h)
    subst hbs
    intro c hc
    simp [readChunksAux] at hc
  | succ fuel ih =>
    cases bs with
    | nil => intro c hc; simp [readChunksAux] at hc
    | cons b bs' =>
      intro c hc
      simp only [readChunksAux] at hc
      rcases List.mem_cons.mp hc with hc' | hc'
      · subst hc'
        constructor
        · rw [List.length_take]
          exact Nat.min_le_left _ _
        · have hpos : 0 < ((b :: bs').take chunk_size).length := by
            rw [List.length_take, List.length_cons]
            have : 0 < chunk_size := by decide
            omega
          exact List.ne_nil_of_length_pos hpos
      · refine ih ?_ c hc'
        rw [List.length_drop]
        simp only [List.length_cons] at h ⊢
        have : 0 < chunk_size := by decide
        omega

theorem readChunksAux_dropLast {fuel : Nat} {bs : List Nat} (h : bs.length ≤ fuel) :
    ∀ c ∈ (readChunksAux fuel bs).dropLast, c.length = chunk_size := by
  induction fuel generalizing bs with
  | zero =>
    have hbs : bs = [] := List.length_eq_zero.mp (Nat.le_zero.mp h)
    subst hbs
    intro c hc
    simp [readChunksAux] at hc
  | succ fuel ih =>
    cases bs with
    | nil => intro c hc; simp [readChunksAux] at hc
    | cons b bs' =>
      intro c hc
      simp only [readChunksAux] at hc
      have hdroplen : ((b :: bs').drop chunk_size).length ≤ fuel := by
        rw [List.length_drop]
        simp only [List.length_cons] at h ⊢
        have : 0 < chunk_size := by decide
        omega
      rcases hrest : readChunksAux fuel ((b :: bs').drop chunk_size) with _ | ⟨r0, rrest⟩
      · rw [hrest] at hc
        simp at hc
      · rw [hrest] at hc
        rw [List.dropLast_cons₂] at hc
        rcases List.mem_cons.mp hc with hc' | hc'
        · subst hc'
          have hdropne : (b :: bs').drop chunk_size ≠ [] := by
            intro hnil
            rw [hnil, readChunksAux_nil] at hrest
            exact List.cons_ne_nil _ _ hrest.symm
          have hlong : chunk_size < (b :: bs').length := by
            by_contra hle
            exact hdropne (List.drop_eq_nil_of_le (Nat.le_of_not_lt hle))
          rw [List.length_take]
          omega
        · have := ih hdroplen
          rw [hrest] at this
          exact this c hc'

theorem readChunksAux_join {fuel : Nat} {bs : List Nat} (h : bs.length ≤ fuel) :
    (readChunksAux fuel bs).flatten = bs := by
  induction fuel generalizing bs with
  | zero =>
    have hbs : bs = [] := List.length_eq_zero.mp (Nat.le_zero.mp h)
    subst hbs
    rfl
  | succ fuel ih =>
    cases bs with
    | nil => rfl
    | cons b bs' =>
      have hdl : ((b :: bs').drop chunk_size).length ≤ fuel := by
        rw [List.length_drop]
        simp only [List.length_cons] at h ⊢
        have : 0 < chunk_size := by decide
        omega
      simp only [readChunksAux, List.flatten_cons]
      rw [ih hdl]
      exact List.take_append_drop _ _

/-- Every chunk `/send` produces is at most 16384 bytes and nonempty. -/
theorem readChunks_mem (bytes : List Nat) :
    ∀ c ∈ readChunks bytes, c.length ≤ chunk_size ∧ c ≠ [] :=
  readChunksAux_mem (Nat.le_refl _)

/-- Every chunk except possibly the last is exactly 16384 bytes. -/
theorem readChunks_dropLast (bytes : List Nat) :
    ∀ c ∈ (readChunks bytes).dropLast, c.length = chunk_size :=
  readChunksAux_dropLast (Nat.le_refl _)

/-- Concatenating the chunks reproduces the file's bytes. -/
theorem readChunks_join (bytes : List Nat) : (readChunks bytes).flatten = bytes :=
  readChunksAux_join (Nat.le_refl _)

/-- Recogniser for a `file-info` control send. -/
def isFileInfoSend : Action → Bool
  | .dcSend (.fileInfo _ _) => true
  | _ => false

theorem filter_fileInfo_binaries (l : List (List Nat)) :
    (l.map fun c => Action.dcSend (.binary c)).filter isFileInfoSend = [] := by
  induction l with
  | nil => rfl
  | cons c cs ih => simp [isFileInfoSend, ih]

/-! ## Claim C8 (/send path) -/

/--
C8: for `/send <filename>` with an existing channel and an existing file, the
sender emits exactly one `file-info` control message, ahead of every binary
chunk (the action list is literally `file-info` followed by the chunk sends),
and the file is cut into 16384-byte chunks — every chunk except possibly the
last is exactly 16384 bytes, none is empty, and the chunks concatenate back to
the file.  If the file does not exist, the error is surfaced to the log and
nothing is sent; the embedding is total, mirroring the source where the
`os.path.exists` check returns before anything is sent (lines 327-329) and the
`try`/`except` keeps any transfer failure out of the caller (lines 354-356).
-/
theorem c8_send_path (fs : FileSystem) (s : ClientState) (cmd : String)
    (args : List String)
    (h1 : startsWithSlash cmd = true)
    (h2 : splitWs (dropFirst cmd) = "send" :: args)
    (h3 : args ≠ [])
    (h4 : s.dcState ≠ none) :
    (∀ bytes, lookupFile fs (joinSpace args) = some bytes →
      (process_command fs s cmd).2 =
        Action.dcSend (.fileInfo (basename (joinSpace args)) bytes.length) ::
          (readChunks bytes).map (fun c => Action.dcSend (.binary c)) ∧
      ((process_command fs s cmd).2.filter isFileInfoSend).length = 1 ∧
      (∀ c ∈ readChunks bytes, c.length ≤ chunk_size ∧ c ≠ []) ∧
      (∀ c ∈ (readChunks bytes).dropLast, c.length = chunk_size) ∧
      (readChunks bytes).flatten = bytes) ∧
    (lookupFile fs (joinSpace args) = none →
      process_command fs s cmd =
        (addMsg s ("[ERROR] File not found: " ++ joinSpace args), [])) := by
  constructor
  · intro bytes hb
    have hl : (process_command fs s cmd).2 =
        Action.dcSend (.fileInfo (basename (joinSpace args)) bytes.length) ::
          (readChunks bytes).map (fun c => Action.dcSend (.binary c)) := by
      simp [process_command, h1, h2, h3, h4, hb]
    refine ⟨hl, ?_, readChunks_mem bytes, readChunks_dropLast bytes, readChunks_join bytes⟩
    rw [hl]
    simp [List.filter_cons, isFileInfoSend, filter_fileInfo_binaries]
  · intro hb
    simp [process_command, h1, h2, h3, h4, hb]

/-- A client whose data channel exists and is open. -/
def sOpen : ClientState := { dcState := some "open" }

/-- Witness for C8 sending the 3-byte file `"a b.txt"` over an open channel. -/
theorem c8_send_path_witness :
    (process_command [("a b.txt", [7, 8, 9])] sOpen "/send a b.txt").2 =
      [Action.dcSend (.fileInfo "a b.txt" 3), Action.dcSend (.binary [7, 8, 9])] := by
  have h := (c8_send_path [("a b.txt", [7, 8, 9])] sOpen "/send a b.txt" ["a", "b.txt"]
      rfl rfl (by decide) (by decide)).1 [7, 8, 9] rfl
  rw [h.1]
  rfl

end P2PFTP

namespace P2PFTP

/-! ## Claim C4 (local ICE candidates are never relayed) -/

/-- The events for which `setup_peer_connection`/`setup_data_channel` register
handlers (the `@pc.on(...)`/`@dc.on(...)` decorators, lines 175-228). -/
def registeredEvents : List String :=
  (setup_actions true).filterMap fun a =>
    match a with
    | .registerHandler ev => some ev
    | _ => none

/-- Every envelope `handle_websocket_message` sends is an `accept` or an
`answer` (the only two `websocket.send` calls in it, lines 243 and 260). -/
theorem handle_ws_send_types (localSdp : String) (s : ClientState) (m : WsMsg)
    (e : Envelope) (he : Action.wsSend e ∈ (handle_websocket_message localSdp s m).2) :
    e.type = "accept" ∨ e.type = "answer" := by
  cases m with
  | token tok => simp [handle_websocket_message] at he
  | request tok =>
    simp [handle_websocket_message, setup_peer_connection, setup_actions,
      setup_data_channel_actions] at he
    subst he
    left
    rfl
  | offer sdp =>
    by_cases hp : s.hasPC
    · simp [handle_websocket_message, hp] at he
      subst he
      right
      rfl
    · simp [handle_websocket_message, hp] at he
  | answer sdp =>
    by_cases hp : s.hasPC <;> simp [handle_websocket_message, hp] at he
  | ice cand =>
    by_cases hp : s.hasPC <;> simp [handle_websocket_message, hp] at he
  | other => simp [handle_websocket_message] at he

/-- Every envelope `process_command` sends is a `connect` (the only
`websocket.send` call in it, line 315). -/
theorem process_command_send_types (fs : FileSystem) (s : ClientState)
    (cmd : String) (e : Envelope)
    (he : Action.wsSend e ∈ (process_command fs s cmd).2) : e.type = "connect" := by
  by_cases h1 : startsWithSlash cmd = false
  · simp only [process_command, if_pos h1] at he
    by_cases h2 : s.dcState = some "open"
    · rw [if_pos h2] at he
      simp at he
    · rw [if_neg h2] at he
      simp at he
  · simp only [process_command, if_neg h1] at he
    rcases hsp : splitWs (dropFirst cmd) with _ | ⟨command, args⟩
    · rw [hsp] at he
      simp at he
    · rw [hsp] at he
      by_cases hc : command = "connect"
      · simp only [hc, if_pos rfl] at he
        rcases args with _ | ⟨a, _ | ⟨b, r⟩⟩
        · simp at he
        · simp [setup_peer_connection, setup_actions, setup_data_channel_actions] at he
          subst he
          rfl
        · simp at he
      · by_cases hs : command = "send"
        · simp only [hc, hs, if_neg, if_pos rfl] at he
          by_cases hargs : args = [] ∨ s.dcState = none
          · rw [if_pos hargs] at he
            simp at he
          · rw [if_neg hargs] at he
            rcases hlf : lookupFile fs (joinSpace args) with _ | bytes
            · rw [hlf] at he
              simp at he
            · rw [hlf] at he
              simp at he
        · by_cases hq : command = "quit"
          · simp [hc, hs, hq] at he
          · simp [hc, hs, hq] at he

/-- No message-processing step emits a `sleep`-free wsSend of type ice along
the receive loop either. -/
theorem processMsgs_send_types (localSdp : String) (s : ClientState)
    (msgs : List WsMsg) (e : Envelope)
    (he : Action.wsSend e ∈ (processMsgs localSdp s msgs).2) :
    e.type = "accept" ∨ e.type = "answer" := by
  induction msgs generalizing s with
  | nil => simp [processMsgs] at he
  | cons m rest ih =>
    simp only [processMsgs] at he
    rcases List.mem_append.mp he with h | h
    · exact handle_ws_send_types localSdp s m e h
    · exact ih _ h

theorem websocket_loop_send_types (localSdp : String) (s : ClientState)
    (trace : List ConnAttempt) (e : Envelope)
    (he : Action.wsSend e ∈ (websocket_loop localSdp s trace).2) :
    e.type = "accept" ∨ e.type = "answer" := by
  induction trace generalizing s with
  | nil => simp [websocket_loop] at he
  | cons a rest ih =>
    simp only [websocket_loop] at he
    rcases List.mem_append.mp he with h | h
    · cases a with
      | connectFailed => simp [runAttempt] at h
      | connected msgs =>
        simp only [runAttempt] at h
        exact processMsgs_send_types localSdp _ msgs e h
    · exact ih _ h

/--
C4: the client has no path that relays a locally surfaced ICE candidate.
`setup_peer_connection` registers handlers only for the five connection-state
events and the data channel (never `icecandidate`), and no reachable code —
the signaling-message handler, the command processor, or the whole reconnect
loop — ever sends an envelope of type `"ice"`: their sends are exactly
`accept`/`answer` and `connect`.  Any candidate the PeerLink surfaced would
be swallowed, contradicting the claim (and the spec's design rule).
-/
theorem c4_no_ice_relay :
    ("icecandidate" ∉ registeredEvents) ∧
    (∀ (localSdp : String) (s : ClientState) (m : WsMsg) (e : Envelope),
      Action.wsSend e ∈ (handle_websocket_message localSdp s m).2 → e.type ≠ "ice") ∧
    (∀ (fs : FileSystem) (s : ClientState) (cmd : String) (e : Envelope),
      Action.wsSend e ∈ (process_command fs s cmd).2 → e.type ≠ "ice") ∧
    (∀ (localSdp : String) (s : ClientState) (trace : List ConnAttempt) (e : Envelope),
      Action.wsSend e ∈ (websocket_loop localSdp s trace).2 → e.type ≠ "ice") := by
  refine ⟨by decide, ?_, ?_, ?_⟩
  · intro localSdp s m e he
    rcases handle_ws_send_types localSdp s m e he with h | h <;> rw [h] <;> decide
  · intro fs s cmd e he
    rw [process_command_send_types fs s cmd e he]
    decide
  · intro localSdp s trace e he
    rcases websocket_loop_send_types localSdp s trace e he with h | h <;> rw [h] <;> decide

/-- Witness for C4 at the concrete `request` trace: the envelope actually sent
there is not an `ice` envelope. -/
theorem c4_no_ice_relay_witness :
    ({ type := "accept", peerToken := some "abc" } : Envelope).type ≠ "ice" :=
  c4_no_ice_relay.2.1 "x" s0 (.request "abc")
    { type := "accept", peerToken := some "abc" } (by decide)

end P2PFTP

namespace P2PFTP

/-! ## Claim C6 (reconnect loop) -/

/-- Sleep actions (the `await asyncio.sleep(retry_delay)` backoff). -/
def isSleep : Action → Bool
  | .sleep _ => true
  | _ => false

/-- Connection attempts where `websockets.connect` itself raised. -/
def isConnectFailed : ConnAttempt → Bool
  | .connectFailed => true
  | _ => false

/-- Messages that assign `self.my_token` (`type == 'token'`, line 237). -/
def isTokenMsg : WsMsg → Bool
  | .token _ => true
  | _ => false

/-- Whether a connection attempt delivered any `token` message. -/
def attemptHasTokenMsg : ConnAttempt → Bool
  | .connectFailed => false
  | .connected msgs => msgs.any isTokenMsg

/-- `add_message` only appends to the log. -/
theorem addMsg_messages (s : ClientState) (m : String) :
    (addMsg s m).messages = s.messages ++ [m] := rfl

theorem handle_ws_messages_append (localSdp : String) (s : ClientState) (m : WsMsg) :
    ∃ l, (handle_websocket_message localSdp s m).1.messages = s.messages ++ l := by
  cases m with
  | token tok =>
    exact ⟨["[INFO] Your token: " ++ tok], by simp [handle_websocket_message, addMsg]⟩
  | request tok =>
    exact ⟨["[INFO] Connection request from: " ++ tok,
            "[DEBUG] Setting up peer connection..."],
      by simp [handle_websocket_message, setup_peer_connection, addMsg]⟩
  | offer sdp =>
    by_cases hp : s.hasPC
    · exact ⟨["[DEBUG] Processing WebRTC offer...", "[DEBUG] Sent WebRTC answer"],
        by simp [handle_websocket_message, hp, addMsg]⟩
    · exact ⟨["[ERROR] Message handling error: AttributeError"],
        by simp [handle_websocket_message, hp, addMsg]⟩
  | answer sdp =>
    by_cases hp : s.hasPC
    · exact ⟨["[DEBUG] Processing WebRTC answer..."],
        by simp [handle_websocket_message, hp, addMsg]⟩
    · exact ⟨["[ERROR] Message handling error: AttributeError"],
        by simp [handle_websocket_message, hp, addMsg]⟩
  | ice cand =>
    by_cases hp : s.hasPC
    · exact ⟨["[DEBUG] Processing ICE candidate..."],
        by simp [handle_websocket_message, hp, addMsg]⟩
    · exact ⟨["[ERROR] Message handling error: AttributeError"],
        by simp [handle_websocket_message, hp, addMsg]⟩
  | other => exact ⟨[], by simp [handle_websocket_message]⟩

theorem processMsgs_messages_append (localSdp : String) (s : ClientState)
    (msgs : List WsMsg) :
    ∃ l, (processMsgs localSdp s msgs).1.messages = s.messages ++ l := by
  induction msgs generalizing s with
  | nil => exact ⟨[], by simp [processMsgs]⟩
  | cons m rest ih =>
    obtain ⟨l1, h1⟩ := handle_ws_messages_append localSdp s m
    obtain ⟨l2, h2⟩ := ih (handle_websocket_message localSdp s m).1
    refine ⟨l1 ++ l2, ?_⟩
    simp only [processMsgs]
    rw [h2, h1, List.append_assoc]

theorem handle_ws_myToken_eq (localSdp : String) (s : ClientState) (m : WsMsg)
    (h : isTokenMsg m = false) :
    (handle_websocket_message localSdp s m).1.myToken = s.myToken := by
  cases m with
  | token tok => simp [isTokenMsg] at h
  | request tok => simp [handle_websocket_message, setup_peer_connection, addMsg]
  | offer sdp => by_cases hp : s.hasPC <;> simp [handle_websocket_message, hp, addMsg]
  | answer sdp => by_cases hp : s.hasPC <;> simp [handle_websocket_message, hp, addMsg]
  | ice cand => by_cases hp : s.hasPC <;> simp [handle_websocket_message, hp, addMsg]
  | other => rfl

theorem processMsgs_myToken_eq (localSdp : String) (s : ClientState)
    (msgs : List WsMsg) (h : ∀ m ∈ msgs, isTokenMsg m = false) :
    (processMsgs localSdp s msgs).1.myToken = s.myToken := by
  induction msgs generalizing s with
  | nil => rfl
  | cons m rest ih =>
    simp only [processMsgs]
    rw [ih _ (fun m' hm' => h m' (List.mem_cons_of_mem _ hm')),
      handle_ws_myToken_eq localSdp s m (h m (List.mem_cons_self _ _))]

theorem runAttempt_myToken_eq (localSdp : String) (s : ClientState) (a : ConnAttempt)
    (h : attemptHasTokenMsg a = false) :
    (runAttempt localSdp s a).1.myToken = s.myToken := by
  cases a with
  | connectFailed => simp [runAttempt, addMsg]
  | connected msgs =>
    have hmsgs : ∀ m ∈ msgs, isTokenMsg m = false := by
      simp only [attemptHasTokenMsg, List.any_eq_false] at h
      intro m hm
      cases hiso : isTokenMsg m with
      | false => rfl
      | true => exact absurd hiso (h m hm)
    simp only [runAttempt, addMsg]
    exact processMsgs_myToken_eq localSdp _ msgs hmsgs

theorem handle_ws_filter_sleep (localSdp : String) (s : ClientState) (m : WsMsg) :
    (handle_websocket_message localSdp s m).2.filter isSleep = [] := by
  cases m with
  | token tok => rfl
  | request tok =>
    simp [handle_websocket_message, setup_peer_connection, setup_actions,
      setup_data_channel_actions, isSleep]
  | offer sdp => by_cases hp : s.hasPC <;> simp [handle_websocket_message, hp, isSleep]
  | answer sdp => by_cases hp : s.hasPC <;> simp [handle_websocket_message, hp, isSleep]
  | ice cand => by_cases hp : s.hasPC <;> simp [handle_websocket_message, hp, isSleep]
  | other => rfl

theorem processMsgs_filter_sleep (localSdp : String) (s : ClientState)
    (msgs : List WsMsg) : (processMsgs localSdp s msgs).2.filter isSleep = [] := by
  induction msgs generalizing s with
  | nil => rfl
  | cons m rest ih =>
    simp only [processMsgs]
    rw [List.filter_append, handle_ws_filter_sleep, ih]
    rfl

/-- The backoff sleep happens exactly once per failed `websockets.connect`,
and never on the connection-lost path. -/
theorem websocket_loop_sleep_count (localSdp : String) (s : ClientState)
    (trace : List ConnAttempt) :
    ((websocket_loop localSdp s trace).2.filter isSleep).length =
      (trace.filter isConnectFailed).length := by
  induction trace generalizing s with
  | nil => rfl
  | cons a rest ih =>
    simp only [websocket_loop]
    rw [List.filter_append, List.length_append]
    cases a with
    | connectFailed =>
      simp only [runAttempt]
      rw [ih]
      simp [isSleep, isConnectFailed, List.filter_cons]
      omega
    | connected msgs =>
      simp only [runAttempt]
      rw [processMsgs_filter_sleep, ih]
      simp [isConnectFailed, List.filter_cons]

theorem websocket_loop_myToken_eq (localSdp : String) (s : ClientState)
    (trace : List ConnAttempt) (h : ∀ a ∈ trace, attemptHasTokenMsg a = false) :
    (websocket_loop localSdp s trace).1.myToken = s.myToken := by
  induction trace generalizing s with
  | nil => rfl
  | cons a rest ih =>
    simp only [websocket_loop]
    rw [ih _ (fun a' ha' => h a' (List.mem_cons_of_mem _ ha')),
      runAttempt_myToken_eq localSdp s a (h a (List.mem_cons_self _ _))]

theorem runAttempt_block (localSdp : String) (s : ClientState) (a : ConnAttempt) :
    ∃ b, (runAttempt localSdp s a).1.messages = s.messages ++ b ∧
      b.head? = some "[DEBUG] Attempting WebSocket connection" ∧
      (a = .connectFailed → "[ERROR] WebSocket connection failed" ∈ b) := by
  cases a with
  | connectFailed =>
    refine ⟨["[DEBUG] Attempting WebSocket connection",
             "[ERROR] WebSocket connection failed"], ?_, rfl, fun _ => by simp⟩
    simp [runAttempt, addMsg]
  | connected msgs =>
    obtain ⟨l, hl⟩ := processMsgs_messages_append localSdp
      (addMsg (addMsg s "[DEBUG] Attempting WebSocket connection")
        "[INFO] WebSocket connection established") msgs
    refine ⟨["[DEBUG] Attempting WebSocket connection",
             "[INFO] WebSocket connection established"] ++ l ++
              ["[ERROR] Connection lost"], ?_, rfl, by simp⟩
    rw [addMsg_messages, addMsg_messages] at hl
    simp only [runAttempt, addMsg_messages]
    rw [hl]
    simp [List.append_assoc]

/--
C6 counterexample: the claim says that after a `ConnectionLost` the client
retries *after the configured backoff (baseline 5 seconds)*.  Running the loop
on two consecutive established-then-lost connections shows the complete action
trace is empty — in particular it contains no `sleep` at all between the first
loss and the second attempt (which the log shows did happen immediately): the
`break` on `ConnectionClosed` (line 417) falls straight back to the outer
`while`, and `await asyncio.sleep(retry_delay)` (line 424) runs only when
`websockets.connect` itself raises.
-/
theorem c6_counterexample :
    ((websocket_loop "x" s0 [.connected [.token "T1"], .connected []]).2 = []) ∧
    ((websocket_loop "x" s0 [.connected [.token "T1"], .connected []]).1.messages =
      ["[DEBUG] Attempting WebSocket connection",
       "[INFO] WebSocket connection established",
       "[INFO] Your token: T1",
       "[ERROR] Connection lost",
       "[DEBUG] Attempting WebSocket connection",
       "[INFO] WebSocket connection established",
       "[ERROR] Connection lost"]) ∧
    ((websocket_loop "x" s0 [.connected [.token "T1"], .connected []]).1.myToken
      = some "T1") := by
  decide

/--
C6 amended: after a `ConnectionLost` the client retries *immediately*, with no
backoff on that path — the 5-second backoff sleep occurs exactly once per
connection attempt that fails with an exception, and nowhere else.  Attempts
are unbounded (every element of any adversarial schedule yields an attempt),
every attempt is logged (each attempt contributes a log block starting with
the attempt message, and failed attempts log the failure), and an acquired
`myToken` is never reset by reconnection (only an inbound `token` message ever
writes it).
-/
theorem c6_amended (localSdp : String) (s : ClientState) (trace : List ConnAttempt) :
    (∃ blocks : List (List String),
      (websocket_loop localSdp s trace).1.messages = s.messages ++ blocks.flatten ∧
      List.Forall₂ (fun (a : ConnAttempt) (b : List String) =>
        b.head? = some "[DEBUG] Attempting WebSocket connection" ∧
        (a = .connectFailed → "[ERROR] WebSocket connection failed" ∈ b))
        trace blocks) ∧
    ((websocket_loop localSdp s trace).2.filter isSleep).length =
      (trace.filter isConnectFailed).length ∧
    (∀ tok, s.myToken = some tok → (∀ a ∈ trace, attemptHasTokenMsg a = false) →
      (websocket_loop localSdp s trace).1.myToken = some tok) := by
  refine ⟨?_, websocket_loop_sleep_count localSdp s trace, ?_⟩
  · induction trace generalizing s with
    | nil => exact ⟨[], by simp [websocket_loop], List.Forall₂.nil⟩
    | cons a rest ih =>
      obtain ⟨b0, hb0, hhead, hfail⟩ := runAttempt_block localSdp s a
      obtain ⟨bs, hbs, hf⟩ := ih (runAttempt localSdp s a).1
      refine ⟨b0 :: bs, ?_, List.Forall₂.cons ⟨hhead, hfail⟩ hf⟩
      simp only [websocket_loop]
      rw [hbs, hb0, List.flatten_cons, List.append_assoc]
  · intro tok htok hnotok
    rw [websocket_loop_myToken_eq localSdp s trace hnotok]
    exact htok

/-- Witness for C6's amended theorem: a failed attempt and a lost connection
do not clear an already-acquired token. -/
theorem c6_amended_witness :
    (websocket_loop "x" sTok [.connectFailed, .connected []]).1.myToken = some "T1" :=
  (c6_amended "x" sTok [.connectFailed, .connected []]).2.2 "T1" rfl (by decide)

end P2PFTP

namespace P2PFTP

/-! ## Claim C5 (transfer counters) -/

theorem processChunks_cons (ts : TransferMap) (c : List Nat) (cs : List (List Nat)) :
    processChunks ts (c :: cs) = processChunks (handle_file_chunk ts c) cs := rfl

/--
C5 counterexample: the claim says `complete` implies `received == size`.
A transfer of advertised size 10 that receives a single 16-byte chunk is
marked complete with `received = 16 ≠ 10`: `handle_file_chunk` adds the whole
chunk length and sets `complete` on `received >= size`, never truncating an
overshooting final chunk.
-/
theorem c5_counterexample :
    handle_file_chunk [("id1", { name := "f.bin", size := 10 })]
        (List.replicate 16 0) =
      [("id1", { name := "f.bin", size := 10, received := 16, complete := true })] ∧
    (16 : Nat) ≠ 10 := by decide

/--
C5 amended: for every tracked transfer (distinct uuid keys, and every already
complete transfer having `received ≥ size`, both true of every state the
client builds) and every sequence of processed chunks: `received` increases
monotonically and always equals its initial value plus the sum of the
byte-lengths of the chunks attributed to it; `complete` becomes true at most
once — a complete transfer is never modified again, so no further chunks are
attributed to it — it is set exactly when an attributed chunk brings
`received >= size`, and `complete` implies `received >= size` (not
`received == size`: the final chunk may overshoot, see the counterexample).
-/
theorem c5_amended (chunks : List (List Nat)) :
    ∀ (ts : TransferMap) (k : String) (t : FileTransfer),
      (ts.map Prod.fst).Nodup → Inv ts → lookupT k ts = some t →
      ∃ t', lookupT k (processChunks ts chunks) = some t' ∧
        t'.name = t.name ∧
        t'.size = t.size ∧
        t'.received = t.received + sumAttributed k ts chunks ∧
        t.received ≤ t'.received ∧
        (t.complete = true → t' = t ∧ countAttributed k ts chunks = 0) ∧
        (countAttributed k ts chunks = 0 → t' = t) ∧
        (0 < countAttributed k ts chunks →
          t'.complete = decide (t.size ≤ t'.received)) ∧
        (t'.complete = true → t'.size ≤ t'.received) := by
  induction chunks with
  | nil =>
    intro ts k t hnd hinv hl
    refine ⟨t, hl, rfl, rfl, by simp [sumAttributed], Nat.le_refl _,
      fun _ => ⟨rfl, rfl⟩, fun _ => rfl, ?_, ?_⟩
    · intro h
      exact absurd h (by simp [countAttributed])
    · intro hc
      exact hinv (k, t) (lookupT_mem hl) hc
  | cons c cs ih =>
    intro ts k t hnd hinv hl
    have hnd' : ((handle_file_chunk ts c).map Prod.fst).Nodup := by
      rw [keys_handle_file_chunk]
      exact hnd
    have hinv' : Inv (handle_file_chunk ts c) := inv_handle_file_chunk c hinv
    rcases hf : firstIncompleteKey ts with _ | k'
    · -- no incomplete transfer: the chunk is dropped, the map is unchanged
      have hid : handle_file_chunk ts c = ts := handle_none c hf
      have hsum : sumAttributed k ts (c :: cs) =
          sumAttributed k (handle_file_chunk ts c) cs := by
        simp [sumAttributed, hf]
      have hcnt : countAttributed k ts (c :: cs) =
          countAttributed k (handle_file_chunk ts c) cs := by
        simp [countAttributed, hf]
      obtain ⟨t', h1, h2, h3, h4, h5, h6, h7, h8, h9⟩ :=
        ih (handle_file_chunk ts c) k t hnd' hinv' (by rwa [hid])
      exact ⟨t', by rwa [processChunks_cons], h2, h3, by rwa [hsum],
        h5, fun hc => (h6 hc).imp id (fun hz => by rwa [hcnt]),
        fun hz => h7 (by rwa [hcnt] at hz), fun hp => h8 (by rwa [hcnt] at hp), h9⟩
    · by_cases hk : k' = k
      · -- the chunk is attributed to our transfer
        rw [hk] at hf
        obtain ⟨hcf, hres⟩ := lookupT_handle_me c hnd hl hf
        set t₁ : FileTransfer :=
          { t with received := t.received + c.length,
                   complete := decide (t.size ≤ t.received + c.length) } with ht₁
        obtain ⟨t', h1, h2, h3, h4, h5, h6, h7, h8, h9⟩ :=
          ih (handle_file_chunk ts c) k t₁ hnd' hinv' hres
        have hsum : sumAttributed k ts (c :: cs) =
            c.length + sumAttributed k (handle_file_chunk ts c) cs := by
          simp [sumAttributed, hf]
        have hcnt : countAttributed k ts (c :: cs) =
            1 + countAttributed k (handle_file_chunk ts c) cs := by
          simp [countAttributed, hf]
        have ht₁recv : t₁.received = t.received + c.length := rfl
        refine ⟨t', by rwa [processChunks_cons], by rw [h2], by rw [h3], ?_, ?_,
          ?_, ?_, ?_, h9⟩
        · rw [hsum, h4, ht₁recv]
          omega
        · calc t.received ≤ t₁.received := by rw [ht₁recv]; exact Nat.le_add_right _ _
            _ ≤ t'.received := h5
        · intro hc
          rw [hc] at hcf
          exact absurd hcf (by simp)
        · intro hz
          rw [hcnt] at hz
          omega
        · intro _
          by_cases htc : t₁.complete = true
          · obtain ⟨ht', _⟩ := h6 htc
            rw [ht']
          · rcases Nat.eq_zero_or_pos (countAttributed k (handle_file_chunk ts c) cs)
              with hz | hpos
            · rw [h7 hz]
            · rw [h8 hpos]
      · -- the chunk is attributed to a different transfer: ours is untouched
        have hres : lookupT k (handle_file_chunk ts c) = some t :=
          lookupT_handle_other c hl hf hk
        have hsum : sumAttributed k ts (c :: cs) =
            sumAttributed k (handle_file_chunk ts c) cs := by
          simp [sumAttributed, hf, hk]
        have hcnt : countAttributed k ts (c :: cs) =
            countAttributed k (handle_file_chunk ts c) cs := by
          simp [countAttributed, hf, hk]
        obtain ⟨t', h1, h2, h3, h4, h5, h6, h7, h8, h9⟩ :=
          ih (handle_file_chunk ts c) k t hnd' hinv' hres
        exact ⟨t', by rwa [processChunks_cons], h2, h3, by rwa [hsum],
          h5, fun hc => (h6 hc).imp id (fun hz => by rwa [hcnt]),
          fun hz => h7 (by rwa [hcnt] at hz), fun hp => h8 (by rwa [hcnt] at hp), h9⟩

end P2PFTP

namespace P2PFTP

/-- Concrete data for the C5 witness: one fresh transfer of size 4 receiving
a 3-byte chunk and then a 6-byte chunk. -/
def t4 : FileTransfer := { name := "f", size := 4 }

def ts4 : TransferMap := [("a", t4)]

def chunks4 : List (List Nat) := [[1, 2, 3], [4, 5, 6]]

/-- Witness for C5's amended theorem, with the hypotheses discharged on the
concrete transfer map. -/
theorem c5_amended_witness :
    ((ts4.map Prod.fst).Nodup ∧ Inv ts4 ∧ lookupT "a" ts4 = some t4) ∧
    (∃ t', lookupT "a" (processChunks ts4 chunks4) = some t' ∧
      t'.name = t4.name ∧
      t'.size = t4.size ∧
      t'.received = t4.received + sumAttributed "a" ts4 chunks4 ∧
      t4.received ≤ t'.received ∧
      (t4.complete = true → t' = t4 ∧ countAttributed "a" ts4 chunks4 = 0) ∧
      (countAttributed "a" ts4 chunks4 = 0 → t' = t4) ∧
      (0 < countAttributed "a" ts4 chunks4 →
        t'.complete = decide (t4.size ≤ t'.received)) ∧
      (t'.complete = true → t'.size ≤ t'.received)) :=
  ⟨⟨by decide, by unfold Inv; decide, by decide⟩,
   c5_amended chunks4 ts4 "a" t4 (by decide) (by unfold Inv; decide) (by decide)⟩

end P2PFTP
